import Mathlib

/-!
Verification of the segment-processing and result-aggregation loop of the
speaker-diarization app (`src/app.py`).  The loop (lines 119-156 and the
talk-time summary at lines 199-205) is shallowly embedded here: audio is a
`List ℚ` of samples, times are exact rationals, Python `int()` truncation,
Python list slicing, `round(x, 2)`, `str.strip()`, the f-string export and
the pandas `groupby("speaker").sum().round(2)` are each modelled by an
executable Lean function.  The external whisper transcription call is an
abstract function parameter (`f`), as the spec treats it as an opaque,
deterministic collaborator.
-/

namespace App

/-- Python `int()` applied to a (non-complex) number: truncation toward zero.
For the nonnegative values produced by diarization this is the floor. -/
def pyInt (q : ℚ) : ℤ := if 0 ≤ q then ⌊q⌋ else ⌈q⌉

/-- Normalization of one Python slice endpoint for a list of length `n`
(step 1 slices): negative indices count from the end, then the result is
clamped into `[0, n]`.  This is exactly CPython's `PySlice_AdjustIndices`. -/
def pyIndex (n : ℕ) (i : ℤ) : ℕ :=
  min (if i < 0 then ((n : ℤ) + i).toNat else i.toNat) n

/-- Python slicing `xs[i:j]` (step 1): total, never raises, silently clamps
out-of-range endpoints. -/
def pySlice {α : Type*} (xs : List α) (i j : ℤ) : List α :=
  (xs.take (pyIndex xs.length j)).drop (pyIndex xs.length i)

/-- A diarization turn as yielded by `annotation.itertracks(yield_label=True)`:
`segment.start`, `segment.end` (seconds) and the speaker label.
(The Python attribute `end` is named `stop` here because `end` is a Lean
keyword.) -/
structure Turn where
  start : ℚ
  stop : ℚ
  speaker : String
deriving DecidableEq

/-- One row appended to `results` in `app.py` (a `SpeakerSegmentRecord` in the
spec's data model): speaker label, rounded start/end times, transcribed text.
(`stop` embeds the Python dict key `"end"`.) -/
structure SpeakerSegmentRecord where
  speaker : String
  start : ℚ
  stop : ℚ
  text : String
deriving DecidableEq

/-- Python `str.strip()`: drop leading and trailing whitespace. -/
def pyStrip (s : String) : String :=
  ⟨(((s.data.dropWhile Char.isWhitespace).reverse).dropWhile Char.isWhitespace).reverse⟩

/-- Round-half-to-even to an integer, the tie-breaking rule used by Python's
builtin `round` (and by pandas/numpy rounding). -/
def roundHalfEven (q : ℚ) : ℤ :=
  if q - ⌊q⌋ < 1/2 then ⌊q⌋
  else if 1/2 < q - ⌊q⌋ then ⌊q⌋ + 1
  else if ⌊q⌋ % 2 = 0 then ⌊q⌋ else ⌊q⌋ + 1

/-- Python `round(x, 2)`: round to the nearest multiple of 1/100, ties to
even hundredths. -/
def pyRound2 (q : ℚ) : ℚ := (roundHalfEven (q * 100) : ℚ) / 100

/-- Rendering of a nonnegative two-decimal value the way Python `str()`
renders the float `round(x, 2)`: shortest decimal form, so trailing zero
decimals are not printed and an integral value prints as `n.0`. -/
def decStrNN (q : ℚ) : String :=
  let n : ℕ := (⌊q * 100⌋).toNat
  let ip := n / 100
  let r := n % 100
  if r = 0 then toString ip ++ ".0"
  else if r % 10 = 0 then toString ip ++ "." ++ toString (r / 10)
  else if r < 10 then toString ip ++ ".0" ++ toString r
  else toString ip ++ "." ++ toString r

/-- Python `str()` of a two-decimal rounded float, including the sign. -/
def decStr (q : ℚ) : String :=
  if q < 0 then "-" ++ decStrNN (-q) else decStrNN q

/-- One line of the `.txt` export:
`f"[{r['start']}s → {r['end']}s] {r['speaker']}: {r['text']}\n"`. -/
def exportLine (r : SpeakerSegmentRecord) : String :=
  "[" ++ decStr r.start ++ "s → " ++ decStr r.stop ++ "s] "
    ++ r.speaker ++ ": " ++ r.text ++ "\n"

/-- The `txt` accumulator built by `for _, r in df.iterrows(): txt += ...`. -/
def txtOutput (rs : List SpeakerSegmentRecord) : String :=
  rs.foldl (fun acc r => acc ++ exportLine r) ""

/-- The audio slice extracted for a turn:
`audio[int(segment.start * sr):int(segment.end * sr)]`. -/
def sliceFor (audio : List ℚ) (sr : ℕ) (t : Turn) : List ℚ :=
  pySlice audio (pyInt (t.start * sr)) (pyInt (t.stop * sr))

/-- Whether a turn survives the minimum-duration filter, i.e. the guard
`len(segment_audio) < int(sr * 0.5)` does NOT fire. -/
def keepTurn (audio : List ℚ) (sr : ℕ) (t : Turn) : Bool :=
  !(((sliceFor audio sr t).length : ℤ) < pyInt ((sr : ℚ) * (1/2)))

/-- The dict appended to `results` for a retained turn: the raw transcribed
text is already stripped by the caller. -/
def mkRecord (t : Turn) (text : String) : SpeakerSegmentRecord :=
  { speaker := t.speaker, start := pyRound2 t.start, stop := pyRound2 t.stop,
    text := text }

/-- The aggregation loop over `annotation.itertracks(...)` (app.py lines
121-140), instrumented with the number of transcription calls made.  A turn
whose slice is shorter than `int(sr * 0.5)` is skipped (`continue`) without
calling the transcriber; otherwise the slice is transcribed, the text is
stripped and a record is appended. -/
def processTurnsC (f : List ℚ → String) (audio : List ℚ) (sr : ℕ) :
    List Turn → List SpeakerSegmentRecord × ℕ
  | [] => ([], 0)
  | t :: ts =>
    if ((sliceFor audio sr t).length : ℤ) < pyInt ((sr : ℚ) * (1/2)) then
      processTurnsC f audio sr ts
    else
      let rest := processTurnsC f audio sr ts
      (mkRecord t (pyStrip (f (sliceFor audio sr t))) :: rest.1, rest.2 + 1)

/-- The `results` list produced by the aggregation loop. -/
def processTurns (f : List ℚ → String) (audio : List ℚ) (sr : ℕ)
    (turns : List Turn) : List SpeakerSegmentRecord :=
  (processTurnsC f audio sr turns).1

/-- The aggregation loop with the ephemeral temp-file names made explicit:
the k-th retained turn is written to the scratch file `names k` and the
transcriber sees that file name together with the samples stored at it.
Used to state that the output does not depend on the temp-file name supply. -/
def processTurnsN (f : String → List ℚ → String) (names : ℕ → String)
    (audio : List ℚ) (sr : ℕ) : List Turn → ℕ → List SpeakerSegmentRecord
  | [], _ => []
  | t :: ts, k =>
    if ((sliceFor audio sr t).length : ℤ) < pyInt ((sr : ℚ) * (1/2)) then
      processTurnsN f names audio sr ts k
    else
      mkRecord t (pyStrip (f (names k) (sliceFor audio sr t)))
        :: processTurnsN f names audio sr ts (k + 1)

/-- Scratch-file events performed by the loop body for one retained turn:
`tempfile.NamedTemporaryFile` + `sf.write` (create), the whisper call, and
`os.remove`. -/
inductive FsEv where
  | create (name : String)
  | transcribeCall (name : String)
  | remove (name : String)
deriving DecidableEq

/-- The aggregation loop with a fallible transcriber and the scratch-file
event trace made explicit.  The source has no `try`/`finally` around the
whisper call: on success `os.remove` runs right after the call, on an
exception the loop aborts, the remaining turns are not processed and the
`os.remove` of the current scratch file never runs. -/
def runLoop (f : List ℚ → Except String String) (names : ℕ → String)
    (audio : List ℚ) (sr : ℕ) :
    List Turn → ℕ → List FsEv × Except String (List SpeakerSegmentRecord)
  | [], _ => ([], .ok [])
  | t :: ts, k =>
    if ((sliceFor audio sr t).length : ℤ) < pyInt ((sr : ℚ) * (1/2)) then
      runLoop f names audio sr ts k
    else
      match f (sliceFor audio sr t) with
      | .error e =>
        ([.create (names k), .transcribeCall (names k)], .error e)
      | .ok text =>
        let rest := runLoop f names audio sr ts (k + 1)
        ([.create (names k), .transcribeCall (names k), .remove (names k)]
            ++ rest.1,
         rest.2.map (fun rs => mkRecord t (pyStrip text) :: rs))

/-- Code-point lexicographic comparison of strings as character lists,
the order pandas uses to sort `groupby` keys. -/
def charListLe : List Char → List Char → Bool
  | [], _ => true
  | _ :: _, [] => false
  | a :: as, b :: bs =>
    if a.toNat < b.toNat then true
    else if b.toNat < a.toNat then false
    else charListLe as bs

/-- Insert a string into a lexicographically sorted list. -/
def strInsert (s : String) : List String → List String
  | [] => [s]
  | x :: xs => if charListLe s.data x.data then s :: x :: xs else x :: strInsert s xs

/-- Insertion sort of strings, modelling pandas' sorted `groupby` keys. -/
def strSort : List String → List String
  | [] => []
  | x :: xs => strInsert x (strSort xs)

/-- The talk-time summary (app.py lines 199-204):
`df.assign(Duration=df["end"]-df["start"]).groupby("speaker",
as_index=False)["Duration"].sum().round(2)` — one row per distinct speaker
label (keys sorted), carrying the rounded sum of that speaker's per-row
durations. -/
def talkTimeSummary (rs : List SpeakerSegmentRecord) : List (String × ℚ) :=
  (strSort (rs.map (fun r => r.speaker)).dedup).map
    (fun s =>
      (s, pyRound2 (((rs.filter (fun r => r.speaker == s)).map
            (fun r => r.stop - r.start)).sum)))

/-- What the app renders after the loop: either the `df.empty` branch
(`st.warning("⚠️ No valid speech segments detected."); st.stop()`), which
produces no table, chat view, summary or download, or the full dashboard
(table/chat view of the records, txt export, talk-time summary). -/
inductive Output where
  | noValidSegments
  | dashboard (records : List SpeakerSegmentRecord) (txt : String)
      (summary : List (String × ℚ))
deriving DecidableEq

/-- The post-loop control flow of `app.py` (lines 142-216). -/
def pipeline (f : List ℚ → String) (audio : List ℚ) (sr : ℕ)
    (turns : List Turn) : Output :=
  let rs := processTurns f audio sr turns
  if rs.isEmpty then .noValidSegments
  else .dashboard rs (txtOutput rs) (talkTimeSummary rs)

example : decStr (123/100) = "1.23" := by with_unfolding_all decide
example : decStr (3/2) = "1.5" := by with_unfolding_all decide
example : decStr 2 = "2.0" := by with_unfolding_all decide
example : pyInt ((27/5 : ℚ)) = 5 := by with_unfolding_all decide
example : pySlice [1, 2, 3, 4, 5] 1 (3 : ℤ) = [2, 3] := by decide
example : pySlice [1, 2, 3] 0 (10 : ℤ) = [1, 2, 3] := by decide
example : pyRound2 (456789/100000) = 457/100 := by with_unfolding_all decide
example : pyStrip " hi " = "hi" := by decide

example :
    processTurns (fun _ => " x ") (List.replicate 6 (0:ℚ)) 10 [⟨0, 3/5, "A"⟩]
      = [⟨"A", 0, 3/5, "x"⟩] := by with_unfolding_all decide

example :
    processTurns (fun _ => "x") (List.replicate 6 (0:ℚ)) 10 [⟨0, 1/4, "A"⟩]
      = [] := by with_unfolding_all decide

example :
    talkTimeSummary [⟨"B", 0, 1, ""⟩, ⟨"A", 2, 3, ""⟩, ⟨"B", 4, 9/2, ""⟩]
      = [("A", 1), ("B", 3/2)] := by with_unfolding_all decide

example :
    pipeline (fun _ => "x") (List.replicate 6 (0:ℚ)) 10 [⟨0, 1/4, "A"⟩]
      = Output.noValidSegments := by with_unfolding_all decide

lemma pyIndex_le_length (n : ℕ) (i : ℤ) : pyIndex n i ≤ n :=
  min_le_right _ _

lemma pySlice_length {α : Type*} (xs : List α) (i j : ℤ) :
    (pySlice xs i j).length = pyIndex xs.length j - pyIndex xs.length i := by
  simp only [pySlice, List.length_drop, List.length_take]
  rw [Nat.min_eq_left (pyIndex_le_length _ _)]

lemma pyIndex_of_nonneg_le {n : ℕ} {i : ℤ} (h0 : 0 ≤ i) (hn : i ≤ (n : ℤ)) :
    (pyIndex n i : ℤ) = i := by
  simp only [pyIndex]
  rw [if_neg (by omega)]
  omega

lemma keepTurn_iff (audio : List ℚ) (sr : ℕ) (t : Turn) :
    keepTurn audio sr t = true ↔
      pyInt ((sr : ℚ) * (1/2)) ≤ ((sliceFor audio sr t).length : ℤ) := by
  simp [keepTurn, not_lt]

lemma processTurnsC_eq (f : List ℚ → String) (audio : List ℚ) (sr : ℕ)
    (turns : List Turn) :
    processTurnsC f audio sr turns =
      ((turns.filter (keepTurn audio sr)).map
          (fun t => mkRecord t (pyStrip (f (sliceFor audio sr t)))),
        List.countP (keepTurn audio sr) turns) := by
  induction turns with
  | nil => rfl
  | cons t ts ih =>
    rw [processTurnsC]
    split
    · next h =>
      have hk : keepTurn audio sr t = false := by
        simp only [keepTurn, Bool.not_eq_false', decide_eq_true_eq]
        exact h
      simp [List.filter_cons, List.countP_cons, hk, ih]
    · next h =>
      have hk : keepTurn audio sr t = true := by
        simp only [keepTurn, Bool.not_eq_true', decide_eq_false_iff_not]
        exact h
      simp [List.filter_cons, List.countP_cons, hk, ih]

lemma processTurns_eq (f : List ℚ → String) (audio : List ℚ) (sr : ℕ)
    (turns : List Turn) :
    processTurns f audio sr turns =
      (turns.filter (keepTurn audio sr)).map
        (fun t => mkRecord t (pyStrip (f (sliceFor audio sr t)))) := by
  simp [processTurns, processTurnsC_eq]

lemma mem_strInsert (x s : String) (l : List String) :
    x ∈ strInsert s l ↔ x = s ∨ x ∈ l := by
  induction l with
  | nil => simp [strInsert]
  | cons y ys ih =>
    by_cases h : charListLe s.data y.data = true
    · simp [strInsert, h]
    · simp only [strInsert, if_neg h, List.mem_cons, ih]
      tauto

lemma mem_strSort (x : String) (l : List String) :
    x ∈ strSort l ↔ x ∈ l := by
  induction l with
  | nil => simp [strSort]
  | cons y ys ih => simp [strSort, mem_strInsert, ih]

/-- C1 counterexample: a turn with `start = 0.09 s`, `end = 0.54 s` at
`sr = 10` has duration `0.45 s < 0.5 s`, so the claim says it is dropped,
yet the code keeps it: the slice `audio[int(0.9):int(5.4)] = audio[0:5]`
has length 5, which is not `< int(10 * 0.5) = 5`.  The filter acts on the
floor-truncated slice length, not on `(end - start) * sample_rate`. -/
theorem c1_counterexample :
    keepTurn (List.replicate 6 (0:ℚ)) 10 ⟨9/100, 27/50, "A"⟩ = true ∧
    ((27/50 : ℚ) - 9/100) * 10 < (1/2) * 10 := by
  with_unfolding_all decide

/-- C1 (amended): a turn is retained iff the length of its extracted slice
`audio[int(start*sr):int(end*sr)]` is at least `int(sr * 0.5)` (boundary
inclusive, since the source drops only on `<`); the transcriber is invoked
exactly once per retained turn (so a dropped turn is never transcribed),
and the result list consists exactly of the records of the retained turns
in order (so a dropped turn contributes to no aggregate). -/
theorem c1_amended :
    (∀ (audio : List ℚ) (sr : ℕ) (t : Turn),
        keepTurn audio sr t = true ↔
          pyInt ((sr : ℚ) * (1/2)) ≤ ((sliceFor audio sr t).length : ℤ)) ∧
    (∀ (f : List ℚ → String) (audio : List ℚ) (sr : ℕ) (turns : List Turn),
        (processTurnsC f audio sr turns).2 =
            List.countP (keepTurn audio sr) turns ∧
        processTurns f audio sr turns =
          (turns.filter (keepTurn audio sr)).map
            (fun t => mkRecord t (pyStrip (f (sliceFor audio sr t))))) := by
  refine ⟨keepTurn_iff, fun f audio sr turns =>
    ⟨?_, processTurns_eq f audio sr turns⟩⟩
  rw [processTurnsC_eq]

/-- C2 counterexample: with a 6-sample buffer at `sr = 10`, the turn
`[0 s, 1 s)` is retained (its clamped slice has length `6 ≥ int(10*0.5)`),
but the slice length 6 differs from `end_idx - start_idx = 10 - 0`:
Python slicing silently clamps at the buffer end. -/
theorem c2_counterexample :
    keepTurn (List.replicate 6 (0:ℚ)) 10 ⟨0, 1, "A"⟩ = true ∧
    ((sliceFor (List.replicate 6 (0:ℚ)) 10 ⟨0, 1, "A"⟩).length : ℤ) ≠
      pyInt ((1 : ℚ) * ((10 : ℕ) : ℚ)) - pyInt ((0 : ℚ) * ((10 : ℕ) : ℚ)) := by
  with_unfolding_all decide

/-- C2 (amended): for nonnegative turn times the sample indices are the
floors `⌊start*sr⌋` and `⌊end*sr⌋` (Python `int()` truncates toward zero,
which is the floor on nonnegative values), and the extracted slice length
equals `end_idx - start_idx` provided `end_idx` does not exceed the buffer
length and `start_idx ≤ end_idx`; outside that range the slice is clamped. -/
theorem c2_amended :
    ∀ (audio : List ℚ) (sr : ℕ) (t : Turn),
      0 ≤ t.start → 0 ≤ t.stop →
      pyInt (t.stop * sr) ≤ (audio.length : ℤ) →
      pyInt (t.start * sr) ≤ pyInt (t.stop * sr) →
      pyInt (t.start * sr) = ⌊t.start * (sr : ℚ)⌋ ∧
      pyInt (t.stop * sr) = ⌊t.stop * (sr : ℚ)⌋ ∧
      ((sliceFor audio sr t).length : ℤ) =
        pyInt (t.stop * sr) - pyInt (t.start * sr) := by
  intro audio sr t h1 h2 hE hSE
  have hs : (0:ℚ) ≤ t.start * sr := mul_nonneg h1 (by positivity)
  have he : (0:ℚ) ≤ t.stop * sr := mul_nonneg h2 (by positivity)
  have e1 : pyInt (t.start * sr) = ⌊t.start * (sr : ℚ)⌋ := by
    simp only [pyInt]
    rw [if_pos hs]
  have e2 : pyInt (t.stop * sr) = ⌊t.stop * (sr : ℚ)⌋ := by
    simp only [pyInt]
    rw [if_pos he]
  refine ⟨e1, e2, ?_⟩
  have h0S : 0 ≤ pyInt (t.start * sr) := by
    rw [e1]
    exact Int.floor_nonneg.mpr hs
  have h0E : 0 ≤ pyInt (t.stop * sr) := by
    rw [e2]
    exact Int.floor_nonneg.mpr he
  have pS : (pyIndex audio.length (pyInt (t.start * sr)) : ℤ) =
      pyInt (t.start * sr) := pyIndex_of_nonneg_le h0S (le_trans hSE hE)
  have pE : (pyIndex audio.length (pyInt (t.stop * sr)) : ℤ) =
      pyInt (t.stop * sr) := pyIndex_of_nonneg_le h0E hE
  simp only [sliceFor]
  rw [pySlice_length]
  omega

/-- C2 witness: concrete instance of the amended claim at a retained turn
whose indices lie inside the buffer. -/
theorem c2_witness :
    ((sliceFor (List.replicate 6 (0:ℚ)) 10 ⟨0, 3/5, "A"⟩).length : ℤ) =
      pyInt ((3/5 : ℚ) * ((10 : ℕ) : ℚ)) - pyInt ((0 : ℚ) * ((10 : ℕ) : ℚ)) :=
  (c2_amended (List.replicate 6 (0:ℚ)) 10 ⟨0, 3/5, "A"⟩
    (by norm_num) (by norm_num)
    (by with_unfolding_all decide) (by with_unfolding_all decide)).2.2

/-- C3 counterexample: the retained turn `[1.5 s, 2.1 s)` produces the
export line `"[1.5s → 2.1s] A: x\n"` — Python's `str()` of the rounded
floats prints `1.5`, not the two-decimal `1.50` the claim's pattern
requires. -/
theorem c3_counterexample :
    txtOutput (processTurns (fun _ => "x") (List.replicate 21 (0:ℚ)) 10
        [⟨3/2, 21/10, "A"⟩]) = "[1.5s → 2.1s] A: x\n" ∧
    txtOutput (processTurns (fun _ => "x") (List.replicate 21 (0:ℚ)) 10
        [⟨3/2, 21/10, "A"⟩]) ≠ "[1.50s → 2.10s] A: x\n" := by
  with_unfolding_all decide

/-- C3 (amended): the export is one newline-terminated line per retained
record, in order, of the form `[<start>s → <end>s] <speaker>: <text>` where
the times are rendered as Python `str()` renders the two-decimal rounded
floats (shortest form: at most two decimals, e.g. `1.5`, `2.0` — not always
exactly two); the claim's concrete scenario record renders exactly as
stated. -/
theorem c3_amended :
    (∀ rs : List SpeakerSegmentRecord,
        txtOutput rs = String.join (rs.map exportLine)) ∧
    txtOutput [⟨"SPEAKER_00", 123/100, 456/100, "hello"⟩] =
      "[1.23s → 4.56s] SPEAKER_00: hello\n" := by
  constructor
  · intro rs
    simp [txtOutput, String.join, List.foldl_map]
  · with_unfolding_all decide

/-- C4 counterexample: with a transcriber that raises, the loop body
creates the scratch file and invokes transcription, but the `os.remove`
never runs — there is no `try`/`finally` in the source, so the file
outlives the turn. -/
theorem c4_counterexample :
    FsEv.create "tmp0" ∈
      (runLoop (fun _ => .error "boom") (fun k => "tmp" ++ toString k)
        (List.replicate 5 (0:ℚ)) 10 [⟨0, 1/2, "A"⟩] 0).1 ∧
    FsEv.remove "tmp0" ∉
      (runLoop (fun _ => .error "boom") (fun k => "tmp" ++ toString k)
        (List.replicate 5 (0:ℚ)) 10 [⟨0, 1/2, "A"⟩] 0).1 := by
  with_unfolding_all decide

/-- C4 (amended): for a retained turn the scratch file is created
immediately before the transcription call, and it is deleted immediately
after the call only when the call returns successfully; when the call
raises, no `remove` event occurs for that file. -/
theorem c4_amended :
    ∀ (f : List ℚ → Except String String) (names : ℕ → String)
      (audio : List ℚ) (sr : ℕ) (t : Turn) (k : ℕ),
      keepTurn audio sr t = true →
      (runLoop f names audio sr [t] k).1 =
        (match f (sliceFor audio sr t) with
          | .ok _ => [FsEv.create (names k), FsEv.transcribeCall (names k),
              FsEv.remove (names k)]
          | .error _ => [FsEv.create (names k), FsEv.transcribeCall (names k)]) := by
  intro f names audio sr t k hk
  have h : ¬(((sliceFor audio sr t).length : ℤ) < pyInt ((sr : ℚ) * (1/2))) := by
    simpa only [keepTurn, Bool.not_eq_true', decide_eq_false_iff_not] using hk
  rw [runLoop, if_neg h]
  cases hf : f (sliceFor audio sr t) with
  | error e => simp [hf]
  | ok s => simp [hf, runLoop]

/-- C4 witness: concrete instance of the amended claim with a succeeding
transcriber — the trace is create, transcribe, remove. -/
theorem c4_witness :
    (runLoop (fun _ => .ok "hi") (fun _ => "scratch.wav")
        (List.replicate 5 (0:ℚ)) 10 [⟨0, 1/2, "A"⟩] 0).1 =
      [FsEv.create "scratch.wav", FsEv.transcribeCall "scratch.wav",
        FsEv.remove "scratch.wav"] :=
  c4_amended (fun _ => .ok "hi") (fun _ => "scratch.wav")
    (List.replicate 5 (0:ℚ)) 10 ⟨0, 1/2, "A"⟩ 0 (by with_unfolding_all decide)

/-- C5: the set of speaker labels in the talk-time summary is exactly the
set of distinct labels among retained turns: a label appears in the summary
iff some turn with that label passed the minimum-duration filter.  In
particular a dropped turn never creates an aggregate entry. -/
theorem c5_speaker_set :
    ∀ (f : List ℚ → String) (audio : List ℚ) (sr : ℕ) (turns : List Turn)
      (s : String),
      s ∈ (talkTimeSummary (processTurns f audio sr turns)).map Prod.fst ↔
        ∃ t ∈ turns, keepTurn audio sr t = true ∧ t.speaker = s := by
  intro f audio sr turns s
  constructor
  · intro h
    simp only [talkTimeSummary, List.map_map, List.mem_map,
      Function.comp_apply] at h
    obtain ⟨a, ha, rfl⟩ := h
    rw [mem_strSort, List.mem_dedup, List.mem_map] at ha
    obtain ⟨r, hr, rfl⟩ := ha
    rw [processTurns_eq] at hr
    simp only [List.mem_map, List.mem_filter] at hr
    obtain ⟨t, ⟨ht, hk⟩, rfl⟩ := hr
    exact ⟨t, ht, hk, rfl⟩
  · rintro ⟨t, ht, hk, rfl⟩
    simp only [talkTimeSummary, List.map_map, List.mem_map,
      Function.comp_apply]
    refine ⟨t.speaker, ?_, rfl⟩
    rw [mem_strSort, List.mem_dedup, List.mem_map]
    refine ⟨mkRecord t (pyStrip (f (sliceFor audio sr t))), ?_, rfl⟩
    rw [processTurns_eq]
    simp only [List.mem_map, List.mem_filter]
    exact ⟨t, ⟨ht, hk⟩, rfl⟩

/-- C6: every row of the talk-time summary reports the speaker's duration
as the rounded sum of `end - start` over that speaker's records (the
sum-of-turn-durations definition); on a two-turn speaker with a gap the
reported value (2) differs from `last_end - first_start` (3). -/
theorem c6_talk_time :
    (∀ (rs : List SpeakerSegmentRecord) (s : String) (d : ℚ),
        (s, d) ∈ talkTimeSummary rs →
        d = pyRound2 (((rs.filter (fun r => r.speaker == s)).map
              (fun r => r.stop - r.start)).sum)) ∧
    talkTimeSummary [⟨"A", 0, 1, "a"⟩, ⟨"A", 2, 3, "b"⟩] = [("A", 2)] ∧
    talkTimeSummary [⟨"A", 0, 1, "a"⟩, ⟨"A", 2, 3, "b"⟩] ≠ [("A", 3 - 0)] := by
  refine ⟨?_, by with_unfolding_all decide, by with_unfolding_all decide⟩
  intro rs s d hmem
  simp only [talkTimeSummary, List.mem_map] at hmem
  obtain ⟨a, _, heq⟩ := hmem
  rw [Prod.ext_iff] at heq
  obtain ⟨h1, h2⟩ := heq
  subst h1
  exact h2.symm

/-- C6 witness: concrete instance of the sum-of-durations formula. -/
theorem c6_witness :
    (1 : ℚ) = pyRound2 ((([⟨"A", 0, 1, "x"⟩] :
        List SpeakerSegmentRecord).filter (fun r => r.speaker == "A")).map
          (fun r => r.stop - r.start)).sum :=
  c6_talk_time.1 [⟨"A", 0, 1, "x"⟩] "A" 1 (by with_unfolding_all decide)

/-- C7: on an empty turn sequence the loop yields no records and makes zero
transcription calls; and whenever zero turns survive the filter, the
pipeline takes the `df.empty` branch — the "no valid segments" warning —
and produces no table, chat view, summary or export. -/
theorem c7_no_valid_segments :
    (∀ (f : List ℚ → String) (audio : List ℚ) (sr : ℕ),
        processTurnsC f audio sr [] = ([], 0)) ∧
    (∀ (f : List ℚ → String) (audio : List ℚ) (sr : ℕ) (turns : List Turn),
        processTurns f audio sr turns = [] →
        pipeline f audio sr turns = Output.noValidSegments) := by
  refine ⟨fun f audio sr => rfl, ?_⟩
  intro f audio sr turns h
  simp [pipeline, h]

/-- C7 witness: a single sub-threshold turn is filtered out and the
pipeline reports no valid segments. -/
theorem c7_witness :
    pipeline (fun _ => "") (List.replicate 8 (0:ℚ)) 16000 [⟨0, 1/4, "A"⟩] =
      Output.noValidSegments :=
  c7_no_valid_segments.2 (fun _ => "") (List.replicate 8 (0:ℚ)) 16000
    [⟨0, 1/4, "A"⟩] (by with_unfolding_all decide)

/-- C8: the aggregation loop is deterministic — two runs over the same
turns, audio and sample rate produce identical record lists even though the
ephemeral temp-file names differ between runs, provided the transcription
adapter's output depends only on the audio content it is given. -/
theorem c8_deterministic :
    ∀ (f : String → List ℚ → String) (audio : List ℚ) (sr : ℕ)
      (turns : List Turn) (names₁ names₂ : ℕ → String) (k₁ k₂ : ℕ),
      (∀ n₁ n₂ s, f n₁ s = f n₂ s) →
      processTurnsN f names₁ audio sr turns k₁ =
        processTurnsN f names₂ audio sr turns k₂ := by
  intro f audio sr turns names₁ names₂ k₁ k₂ hf
  induction turns generalizing k₁ k₂ with
  | nil => rfl
  | cons t ts ih =>
    by_cases h : ((sliceFor audio sr t).length : ℤ) < pyInt ((sr : ℚ) * (1/2))
    · rw [processTurnsN, processTurnsN, if_pos h, if_pos h]
      exact ih k₁ k₂
    · rw [processTurnsN, processTurnsN, if_neg h, if_neg h,
        hf (names₁ k₁) (names₂ k₂) (sliceFor audio sr t), ih (k₁ + 1) (k₂ + 1)]

/-- C8 witness: two runs with different temp-file name supplies agree on a
concrete input. -/
theorem c8_witness :
    processTurnsN (fun _ s => toString s.length) (fun k => toString k)
        (List.replicate 6 (0:ℚ)) 10 [⟨0, 3/5, "A"⟩] 0 =
      processTurnsN (fun _ s => toString s.length) (fun _ => "scratch")
        (List.replicate 6 (0:ℚ)) 10 [⟨0, 3/5, "A"⟩] 5 :=
  c8_deterministic (fun _ s => toString s.length) (List.replicate 6 (0:ℚ))
    10 [⟨0, 3/5, "A"⟩] (fun k => toString k) (fun _ => "scratch") 0 5
    (fun _ _ _ => rfl)

/-- C9: every record produced by the loop stores the turn's start and end
rounded to two decimals via Python `round(·, 2)` (half-to-even); the export
and the talk-time summary consume only these records, hence only the
rounded values. -/
theorem c9_rounded_times :
    ∀ (f : List ℚ → String) (audio : List ℚ) (sr : ℕ) (turns : List Turn)
      (r : SpeakerSegmentRecord),
      r ∈ processTurns f audio sr turns →
      ∃ t ∈ turns, keepTurn audio sr t = true ∧ r.speaker = t.speaker ∧
        r.start = pyRound2 t.start ∧ r.stop = pyRound2 t.stop := by
  intro f audio sr turns r hr
  rw [processTurns_eq] at hr
  simp only [List.mem_map, List.mem_filter] at hr
  obtain ⟨t, ⟨ht, hk⟩, rfl⟩ := hr
  exact ⟨t, ht, hk, rfl, rfl, rfl⟩

/-- C9 witness: the record of a concrete retained turn carries the rounded
times. -/
theorem c9_witness :
    ∃ t ∈ [(⟨3/2, 2, "B"⟩ : Turn)],
      keepTurn (List.replicate 21 (0:ℚ)) 10 t = true ∧
      (⟨"B", 3/2, 2, "x"⟩ : SpeakerSegmentRecord).speaker = t.speaker ∧
      (⟨"B", 3/2, 2, "x"⟩ : SpeakerSegmentRecord).start = pyRound2 t.start ∧
      (⟨"B", 3/2, 2, "x"⟩ : SpeakerSegmentRecord).stop = pyRound2 t.stop :=
  c9_rounded_times (fun _ => " x ") (List.replicate 21 (0:ℚ)) 10
    [⟨3/2, 2, "B"⟩] ⟨"B", 3/2, 2, "x"⟩ (by with_unfolding_all decide)

/-- C10: Python slicing of the audio buffer is total: its length is the
difference of the clamped endpoints (so an over-long turn is truncated at
the buffer end), a start index at or beyond the buffer end yields the empty
slice, and consequently the turn `[0 s, 1 s)` — nominal duration 1 s ≥
0.5 s — is nevertheless dropped on a 3-sample buffer at `sr = 10` because
its truncated slice has length `3 < int(10 * 0.5)`. -/
theorem c10_slice_total :
    (∀ (xs : List ℚ) (i j : ℤ),
        (pySlice xs i j).length = pyIndex xs.length j - pyIndex xs.length i) ∧
    (∀ (xs : List ℚ) (i j : ℤ), (xs.length : ℤ) ≤ i → pySlice xs i j = []) ∧
    (keepTurn (List.replicate 3 (0:ℚ)) 10 ⟨0, 1, "A"⟩ = false ∧
      (1/2 : ℚ) * 10 ≤ ((1 : ℚ) - 0) * 10) := by
  refine ⟨pySlice_length, ?_, by with_unfolding_all decide⟩
  intro xs i j h
  have hi : pyIndex xs.length i = xs.length := by
    simp only [pyIndex]
    rw [if_neg (by omega)]
    omega
  have hj := pyIndex_le_length xs.length j
  rw [← List.length_eq_zero, pySlice_length, hi]
  omega

/-- C10 witness: slicing from beyond the buffer end is empty. -/
theorem c10_witness : pySlice ([0] : List ℚ) 5 7 = [] :=
  c10_slice_total.2.1 [0] 5 7 (by decide)

end App
